import Mathlib

set_option maxRecDepth 100000

/-!
# Verification of the Roman numeral converter (converter.c)

Shallow embedding of the core of `src/converter.c`:

* `roman_value`      — the symbol/value table (`roman_value` in the source);
* `validate_roman`   — the structural validator (single left-to-right scan with
  repeat counters, V/L/D usage flags, a magnitude ceiling, and last-subtractive
  tracking), mirroring `validate_roman` together with its helpers
  `cannot_repeat`, `can_subsequently_repeat` and `is_valid_subtractive`;
* `regex_roman`      — the pattern validator: the anchored POSIX extended
  regular expression so its language is embedded as the (finite) set of
  concatenations of one branch from each group;
* `roman_converter`  — the numeral evaluator (sum with one-symbol lookahead);
* `int_converter`    — the greedy integer-to-Roman converter over the
  descending table of 13 (value, symbol) pairs.

C `int` arithmetic never comes close to overflow here (all values involved are
at most a few thousand in the reachable inputs), so machine integers are
modelled by `Nat`/`Int` directly.
-/

namespace RomanConverter

/-- `roman_value` from converter.c: the value of one Roman symbol,
`0` for any character outside the table (the `default` case of the
C `switch`). -/
def roman_value (c : Char) : Nat :=
  if c = 'I' then 1
  else if c = 'V' then 5
  else if c = 'X' then 10
  else if c = 'L' then 50
  else if c = 'C' then 100
  else if c = 'D' then 500
  else if c = 'M' then 1000
  else 0

/-- `is_valid_subtractive` from converter.c: the six legal subtractive pairs
IV, IX, XL, XC, CD, CM (given by the values of the two symbols). -/
def is_valid_subtractive (prev curr : Nat) : Bool :=
  (prev == 1 && (curr == 5 || curr == 10)) ||
  (prev == 10 && (curr == 50 || curr == 100)) ||
  (prev == 100 && (curr == 500 || curr == 1000))

/-- `can_subsequently_repeat` from converter.c: I, X, C, M can repeat at most
3 times; for other values this check never fires. -/
def can_subsequently_repeat (value rep_count : Nat) : Bool :=
  if (value = 1 ∨ value = 10 ∨ value = 100 ∨ value = 1000) ∧ rep_count > 3 then
    false
  else
    true

/-- `cannot_repeat` from converter.c.  Given the current value and the three
"already seen" flags for V, L, D, return (reject, new V flag, new L flag,
new D flag): the call rejects iff the value is 5/50/500 and that symbol was
already seen, and otherwise records the symbol as seen. -/
def cannot_repeat (value : Nat) (v_rep l_rep d_rep : Bool) :
    Bool × Bool × Bool × Bool :=
  if value = 5 then (v_rep, true, l_rep, d_rep)
  else if value = 50 then (l_rep, v_rep, true, d_rep)
  else if value = 500 then (d_rep, v_rep, l_rep, true)
  else (false, v_rep, l_rep, d_rep)

/-- The scan-local state of `validate_roman` in converter.c, together with the
values of the previous character (`p`, the value of `roman[i-1]`) and the one
before it (`pp`, the value of `roman[i-2]`); `none` means the position does
not exist yet.  Field correspondence with the C locals:
`rep` = `repeat`, `maxv` = `max`, `lastSubVal` = `last_subtractive_value`,
`lastSub` = `last_subtractive`, `vRep`/`lRep`/`dRep` =
`v_repeat`/`l_repeat`/`d_repeat`. -/
structure VConfig where
  pp : Option Nat
  p : Option Nat
  rep : Nat
  maxv : Nat
  lastSubVal : Nat
  lastSub : Bool
  vRep : Bool
  lRep : Bool
  dRep : Bool
  deriving DecidableEq, Repr

/-- The `i > 1` double-subtraction check of `validate_roman`:
reject when `roman[i-2]` and `roman[i-1]` are both strictly smaller than
`roman[i]` (e.g. the pattern "IIX"). -/
def double_subtraction (pp : Option Nat) (pv cv : Nat) : Bool :=
  match pp with
  | some ppv => decide (ppv < cv) && decide (pv < cv)
  | none => false

/-- One iteration of the `validate_roman` loop body in converter.c, except for
its trailing next-character (lookahead) check, which `validate_loop` performs
on the remainder of the string.  Returns `none` when the iteration hits a
`return false`, otherwise the updated state. -/
def vbody (q : VConfig) (c : Char) : Option VConfig :=
  let cv := roman_value c
  -- Validate character
  if cv = 0 then none
  else
    -- Track non-repeatable numerals
    let cr := cannot_repeat cv q.vRep q.lRep q.dRep
    if cr.1 then none
    else
      let q1 : VConfig := { q with vRep := cr.2.1, lRep := cr.2.2.1, dRep := cr.2.2.2 }
      match q1.p with
      | none =>
        -- i = 0: the `continue` case
        some { q1 with pp := none, p := some cv }
      | some pv =>
        -- Handle consecutive repeats
        let rep := if cv = pv then q1.rep + 1 else 1
        if cv = pv ∧ can_subsequently_repeat cv rep = false then none
        else
          -- Validate subtractive notation
          if pv < cv then
            if is_valid_subtractive pv cv = false ∨ q1.lastSub = true ∨
                cv > q1.maxv ∨ pv = q1.lastSubVal then none
            else if double_subtraction q1.pp pv cv then none
            else some { q1 with pp := some pv, p := some cv, rep := rep,
                                lastSubVal := pv, maxv := cv, lastSub := true }
          else
            if pv > q1.maxv ∨ cv = q1.lastSubVal then none
            else if double_subtraction q1.pp pv cv then none
            else some { q1 with pp := some pv, p := some cv, rep := rep,
                                maxv := pv, lastSub := false }

/-- The trailing next-character check of the `validate_roman` loop body:
after a subtractive pair, reject when the next character exists and its value
exceeds the smaller value of that pair. -/
def lookahead_fail (q : VConfig) (rest : List Char) : Bool :=
  q.lastSub && match rest with
    | n :: _ => decide (roman_value n > q.lastSubVal)
    | [] => false

/-- The `for` loop of `validate_roman` in converter.c, processing the
remaining characters from state `q`. -/
def validate_loop (q : VConfig) : List Char → Bool
  | [] => true
  | c :: rest =>
    match vbody q c with
    | none => false
    | some q2 => if lookahead_fail q2 rest then false else validate_loop q2 rest

/-- The initial state of `validate_roman` in converter.c:
`repeat = 1`, `max = 1000`, `last_subtractive_value = 0`, all flags false. -/
def initConfig : VConfig :=
  { pp := none, p := none, rep := 1, maxv := 1000, lastSubVal := 0,
    lastSub := false, vRep := false, lRep := false, dRep := false }

/-- `validate_roman` from converter.c: the structural validator. -/
def validate_roman (s : String) : Bool :=
  validate_loop initConfig s.data

/-- The C idiom `roman[i + 1] ? roman_value(roman[i + 1]) : 0` on the list of
remaining characters: the value of the first character of `l`, and `after`
when `l` is empty (`after` is 0 everywhere in the embedded code; the general
parameter only serves the proofs about concatenations). -/
def firstVal (l : List Char) (after : Nat) : Nat :=
  match l with
  | n :: _ => roman_value n
  | [] => after

/-- The numeral evaluator `roman_converter` from converter.c on a character
list: left-to-right sum with one-symbol lookahead — a symbol counts negative
when the following symbol has a strictly larger value (at the end of the
string the "next value" is 0, as in the C code). -/
def roman_converter_list : List Char → Int
  | [] => 0
  | c :: rest =>
    let current_value : Int := roman_value c
    let next_value : Int := firstVal rest 0
    (if current_value < next_value then -current_value else current_value) +
      roman_converter_list rest

/-- `roman_converter` from converter.c. -/
def roman_converter (s : String) : Int :=
  roman_converter_list s.data

/-- The 20-byte buffer size `MAX_ROMAN_LENGTH` from converter.c. -/
def MAX_ROMAN_LENGTH : Nat := 20

/-- The descending (value, symbol) table of `int_converter` in converter.c. -/
def conversion_table : List (Nat × String) :=
  [(1000, "M"), (900, "CM"), (500, "D"), (400, "CD"), (100, "C"), (90, "XC"),
   (50, "L"), (40, "XL"), (10, "X"), (9, "IX"), (5, "V"), (4, "IV"), (1, "I")]

/-- `sym` concatenated `k` times (what `k` iterations of the inner
`while (num >= values[i]) strcat(roman, symbols[i]);` append). -/
def repeat_symbol (sym : String) : Nat → String
  | 0 => ""
  | k + 1 => sym ++ repeat_symbol sym k

/-- The `for` loop of `int_converter` in converter.c over the remaining table
entries.  For a positive table value `v`, the inner `while` appends the symbol
`num / v` times and leaves `num % v` as the remaining amount; the outer loop
stops as soon as the remaining amount is 0. -/
def int_converter_go : List (Nat × String) → Nat → String
  | [], _ => ""
  | (v, sym) :: rest, num =>
    if 0 < num then repeat_symbol sym (num / v) ++ int_converter_go rest (num % v)
    else ""

/-- `int_converter` from converter.c (the returned heap string; allocation
failure is outside the model).  The C parameter has type `int`; for any
`num <= 0` the C loop body never runs and the result is the empty string,
so `Nat` input is faithful on the entire range the program uses. -/
def int_converter (num : Nat) : String :=
  int_converter_go conversion_table num

/-!
## The pattern validator

`regex_roman` in converter.c matches the whole string against the anchored
POSIX extended regular expression

  `^M{0,3}(CM|CD|D?C{0,3})(XC|XL|L?X{0,3})(IX|IV|V?I{0,3})$`

(compilation of this fixed pattern succeeds, and `regexec` then reports
whether the whole string is in the pattern's language, because the pattern is
anchored on both sides).  Each group denotes a finite set of strings, listed
below branch by branch (`D?C{0,3}` contributes the eight strings
"", "C", "CC", "CCC", "D", "DC", "DCC", "DCCC", and similarly for the other
optional-prefix branches), so the language of the whole pattern is the set of
concatenations of one string from each group. -/

/-- The strings matched by `M{0,3}`. -/
def thousands_group : List String := ["", "M", "MM", "MMM"]

/-- The strings matched by `(CM|CD|D?C{0,3})`. -/
def hundreds_group : List String :=
  ["CM", "CD", "", "C", "CC", "CCC", "D", "DC", "DCC", "DCCC"]

/-- The strings matched by `(XC|XL|L?X{0,3})`. -/
def tens_group : List String :=
  ["XC", "XL", "", "X", "XX", "XXX", "L", "LX", "LXX", "LXXX"]

/-- The strings matched by `(IX|IV|V?I{0,3})`. -/
def units_group : List String :=
  ["IX", "IV", "", "I", "II", "III", "V", "VI", "VII", "VIII"]

/-- `regex_roman` from converter.c: whole-string membership in the language of
the pattern `^M{0,3}(CM|CD|D?C{0,3})(XC|XL|L?X{0,3})(IX|IV|V?I{0,3})$`. -/
def regex_roman (s : String) : Bool :=
  thousands_group.any fun t =>
    hundreds_group.any fun h =>
      tens_group.any fun te =>
        units_group.any fun u => s == t ++ h ++ te ++ u


/-!
## A deterministic automaton for the canonical language

`RState` lists the states of a small DFA recognizing exactly the language of
the pattern `^M{0,3}(CM|CD|D?C{0,3})(XC|XL|L?X{0,3})(IX|IV|V?I{0,3})$`.
State names record the progress inside the current group (for instance `cm`
is "just read the branch CM of the hundreds group", `dc2` is "read D and two
C", `lx3` is "read L and three X").  The language is closed under prefixes,
so every state except the sink `dead` is accepting, and a word is accepted
exactly when the scan never reaches `dead`.
-/

inductive RState where
  | r0 | m1 | m2 | m3
  | c1 | c2 | c3 | cm | cd | d0 | dc1 | dc2 | dc3
  | x1 | x2 | x3 | xc | xl | l0 | lx1 | lx2 | lx3
  | i1 | i2 | i3 | ix | iv | v0 | vi1 | vi2 | vi3
  | dead
  deriving DecidableEq, Repr

/-- DFA transition on the symbol M (value 1000). -/
def stepM : RState → RState
  | .r0 => .m1 | .m1 => .m2 | .m2 => .m3
  | .c1 => .cm
  | _ => .dead

/-- DFA transition on the symbol D (value 500). -/
def stepD : RState → RState
  | .r0 | .m1 | .m2 | .m3 => .d0
  | .c1 => .cd
  | _ => .dead

/-- DFA transition on the symbol C (value 100). -/
def stepC : RState → RState
  | .r0 | .m1 | .m2 | .m3 => .c1
  | .c1 => .c2 | .c2 => .c3
  | .d0 => .dc1 | .dc1 => .dc2 | .dc2 => .dc3
  | .x1 => .xc
  | _ => .dead

/-- DFA transition on the symbol L (value 50). -/
def stepL : RState → RState
  | .r0 | .m1 | .m2 | .m3 | .c1 | .c2 | .c3 | .cm | .cd | .d0 | .dc1 | .dc2 | .dc3 => .l0
  | .x1 => .xl
  | _ => .dead

/-- DFA transition on the symbol X (value 10). -/
def stepX : RState → RState
  | .r0 | .m1 | .m2 | .m3 | .c1 | .c2 | .c3 | .cm | .cd | .d0 | .dc1 | .dc2 | .dc3 => .x1
  | .x1 => .x2 | .x2 => .x3
  | .l0 => .lx1 | .lx1 => .lx2 | .lx2 => .lx3
  | .i1 => .ix
  | _ => .dead

/-- DFA transition on the symbol V (value 5). -/
def stepV : RState → RState
  | .r0 | .m1 | .m2 | .m3 | .c1 | .c2 | .c3 | .cm | .cd | .d0 | .dc1 | .dc2 | .dc3
  | .x1 | .x2 | .x3 | .xc | .xl | .l0 | .lx1 | .lx2 | .lx3 => .v0
  | .i1 => .iv
  | _ => .dead

/-- DFA transition on the symbol I (value 1). -/
def stepI : RState → RState
  | .r0 | .m1 | .m2 | .m3 | .c1 | .c2 | .c3 | .cm | .cd | .d0 | .dc1 | .dc2 | .dc3
  | .x1 | .x2 | .x3 | .xc | .xl | .l0 | .lx1 | .lx2 | .lx3 => .i1
  | .i1 => .i2 | .i2 => .i3
  | .v0 => .vi1 | .vi1 => .vi2 | .vi2 => .vi3
  | _ => .dead

/-- DFA transition indexed by the symbol value; value 0 (a character outside
the symbol table) moves to the sink. -/
def rstep' (r : RState) (v : Nat) : RState :=
  if v = 1000 then stepM r
  else if v = 500 then stepD r
  else if v = 100 then stepC r
  else if v = 50 then stepL r
  else if v = 10 then stepX r
  else if v = 5 then stepV r
  else if v = 1 then stepI r
  else .dead

/-- DFA transition on a character. -/
def rstep (r : RState) (c : Char) : RState := rstep' r (roman_value c)

/-- Run the DFA over a character list. -/
def rfold (r : RState) (l : List Char) : RState := List.foldl rstep r l

/-- Every state of the DFA is accepting except the sink. -/
def isLive : RState → Bool
  | .dead => false
  | _ => true

/-- DFA acceptance: the scan never dies. -/
def raccept (r : RState) (l : List Char) : Bool := isLive (rfold r l)

/-!
## The validator as a step function

`vstep` performs, on the current character, first the pending lookahead check
recorded by the previous iteration of the `validate_roman` loop (the trailing
next-character check reads exactly the current character), then the loop body
for the current character.  `vrun` runs it; `validate_loop` agrees with
`vrun` whenever no lookahead check is pending against the first character,
which is the case at the start of the scan.
-/

/-- One full step of the validator viewed as a DFA: the pending lookahead
check of the previous position, then the loop body at this character. -/
def vstep (q : VConfig) (c : Char) : Option VConfig :=
  if q.lastSub = true ∧ roman_value c > q.lastSubVal then none
  else vbody q c

/-- Run the validator step function; `none` is the rejecting sink. -/
def vrun : Option VConfig → List Char → Bool
  | none, _ => false
  | some _, [] => true
  | some q, c :: rest => vrun (vstep q c) rest

/-- The seven Roman symbol characters. -/
def alphabetChars : List Char := ['I', 'V', 'X', 'L', 'C', 'D', 'M']

/-!
## A bisimulation certificate

The validator (as the step function `vstep` on `VConfig`) and the
canonical-language DFA (`rstep` on `RState`) are related by a bisimulation:
a finite list of (validator state, DFA state) pairs containing the two
initial states and closed under joint steps, on which the two machines also
reject in lockstep.  To keep the certificate cheap to check by evaluation,
each pair is stored as a single natural number through the packing
`encodePair` below (`decodeCfg`/`decodeR` unpack it); the closure check
`good_closed` works on the packed list.
-/

/-- Pack a symbol value (a possible value of `roman_value`) into 3 bits;
`none` (no previous character yet) shares code 0 with the unused value 0. -/
def optIdx : Option Nat → Nat
  | none => 0
  | some v =>
    if v = 1 then 1 else if v = 5 then 2 else if v = 10 then 3
    else if v = 50 then 4 else if v = 100 then 5 else if v = 500 then 6
    else if v = 1000 then 7 else 0

/-- Unpack a 3-bit code back to a symbol value. -/
def idxOpt : Nat → Option Nat
  | 1 => some 1
  | 2 => some 5
  | 3 => some 10
  | 4 => some 50
  | 5 => some 100
  | 6 => some 500
  | 7 => some 1000
  | _ => none

/-- A bit for a flag. -/
def bitOf (b : Bool) : Nat := if b then 1 else 0

/-- Number the DFA states 0..31. -/
def rIdx : RState → Nat
  | .r0 => 0 | .m1 => 1 | .m2 => 2 | .m3 => 3
  | .c1 => 4 | .c2 => 5 | .c3 => 6 | .cm => 7 | .cd => 8 | .d0 => 9
  | .dc1 => 10 | .dc2 => 11 | .dc3 => 12
  | .x1 => 13 | .x2 => 14 | .x3 => 15 | .xc => 16 | .xl => 17 | .l0 => 18
  | .lx1 => 19 | .lx2 => 20 | .lx3 => 21
  | .i1 => 22 | .i2 => 23 | .i3 => 24 | .ix => 25 | .iv => 26 | .v0 => 27
  | .vi1 => 28 | .vi2 => 29 | .vi3 => 30
  | .dead => 31

/-- The DFA state with a given number. -/
def idxR : Nat → RState
  | 0 => .r0 | 1 => .m1 | 2 => .m2 | 3 => .m3
  | 4 => .c1 | 5 => .c2 | 6 => .c3 | 7 => .cm | 8 => .cd | 9 => .d0
  | 10 => .dc1 | 11 => .dc2 | 12 => .dc3
  | 13 => .x1 | 14 => .x2 | 15 => .x3 | 16 => .xc | 17 => .xl | 18 => .l0
  | 19 => .lx1 | 20 => .lx2 | 21 => .lx3
  | 22 => .i1 | 23 => .i2 | 24 => .i3 | 25 => .ix | 26 => .iv | 27 => .v0
  | 28 => .vi1 | 29 => .vi2 | 30 => .vi3
  | _ => .dead

/-- Pack a (validator state, DFA state) pair into one natural number. -/
def encodePair (q : VConfig) (r : RState) : Nat :=
  rIdx r + 32 * (optIdx q.pp + 8 * (optIdx q.p + 8 * (optIdx (some q.maxv) + 8 *
    (optIdx (some q.lastSubVal) + 8 * (q.rep + 8 *
      (bitOf q.lastSub + 2 * (bitOf q.vRep + 2 * (bitOf q.lRep + 2 * bitOf q.dRep))))))))

/-- Unpack the validator state of a packed pair. -/
def decodeCfg (n : Nat) : VConfig :=
  let m := n / 32
  { pp := idxOpt (m % 8)
    p := idxOpt (m / 8 % 8)
    maxv := (idxOpt (m / 64 % 8)).getD 0
    lastSubVal := (idxOpt (m / 512 % 8)).getD 0
    rep := m / 4096 % 8
    lastSub := m / 32768 % 2 = 1
    vRep := m / 65536 % 2 = 1
    lRep := m / 131072 % 2 = 1
    dRep := m / 262144 % 2 = 1 }

/-- Unpack the DFA state of a packed pair. -/
def decodeR (n : Nat) : RState := idxR (n % 32)

/-- The 167 packed (validator state, DFA state) pairs reachable when the
validator and the DFA scan the same symbol string in lockstep from their
initial states (`initConfig`, `RState.r0`), as long as neither has rejected.
The first entry, 145408, packs the initial pair itself. -/
def goodEnc : List Nat := [
  145408, 145686, 2243099, 146189, 4340754, 146692, 8535561, 147201, 264503, 3297850,
  1203001, 2232668, 137590, 2235003, 269166, 5432433, 1240432, 4333974, 6431387, 4334483,
  141750, 2239163, 142253, 4336818, 273829, 9664168, 1277863, 8532438, 10629851, 8532941,
  12727506, 8533450, 145910, 2243323, 146413, 4340978, 146916, 8535785, 278498, 395576,
  2361661, 400239, 4383126, 6480539, 190902, 2288315, 4458807, 7492154, 5397305, 6426972,
  4331894, 6429307, 4463476, 404902, 8614358, 10711771, 8614861, 12809426, 227830, 2325243,
  228333, 4422898, 8653111, 11686458, 9591609, 10621276, 8526198, 10623611, 8657774, 13821041,
  9629040, 12722582, 14819995, 12723091, 8530358, 10627771, 8530861, 12725426, 8662443, 409571,
  2492734, 4507959, 6476124, 313655, 2281820, 4589880, 6555965, 4594549, 8735031, 10703196,
  8608118, 10705531, 8739694, 12804502, 14901915, 12805011, 346423, 2314588, 219510, 2316923,
  351086, 4415894, 6513307, 4416403, 8784184, 10750269, 8788847, 12771734, 14869147, 8579510,
  10676923, 12847415, 15880762, 13785913, 14815580, 12720502, 14817915, 12852084, 8793516, 4639032,
  6605117, 444728, 2410813, 6687038, 8866104, 10832189, 8870767, 12929335, 14897500, 12802422,
  14899835, 12934004, 477496, 2443581, 482159, 4540727, 6508892, 4413814, 6511227, 4545396,
  10881342, 12896567, 14864732, 8702263, 10670428, 12978488, 14944573, 12983157, 6736190, 2541886,
  10963262, 13060408, 15026493, 13065077, 2574654, 4671800, 6637885, 4676469, 13027640, 14993725,
  8833336, 10799421, 15075646, 15157566, 6768958, 15124798, 10930494]

/-- Cheap field-wise Boolean equality of validator states (used instead of
the derived decidable equality inside evaluated checks). -/
def cfgBeq (a b : VConfig) : Bool :=
  a.pp == b.pp && a.p == b.p && a.rep == b.rep && a.maxv == b.maxv &&
  a.lastSubVal == b.lastSubVal && a.lastSub == b.lastSub &&
  a.vRep == b.vRep && a.lRep == b.lRep && a.dRep == b.dRep

/-- One certificate obligation: from the pair packed in `n`, on character
`c`, the validator and the DFA reject together, and if both survive then the
successor pair is again in the certificate and its packing is faithful. -/
def stepOk (n : Nat) (c : Char) : Bool :=
  match vstep (decodeCfg n) c with
  | none => !(isLive (rstep (decodeR n) c))
  | some q2 =>
    let r2 := rstep (decodeR n) c
    let k := encodePair q2 r2
    isLive r2 && goodEnc.contains k && cfgBeq (decodeCfg k) q2 && rIdx (decodeR k) == rIdx r2

/-- The whole certificate check: every listed pair has a live (accepting) DFA
state and satisfies `stepOk` on all seven symbols. -/
def good_closed : Bool :=
  goodEnc.all fun n => isLive (decodeR n) && alphabetChars.all fun c => stepOk n c

theorem good_closed_eq : good_closed = true := by decide

/-!
## From the C loop to the step function

`validate_loop` performs the lookahead check of position `i` while still at
position `i`; `vrun` defers it to position `i+1` (where the checked character
is the current one).  The two agree whenever no check is pending against the
first remaining character — in particular at the start of the scan, where
`last_subtractive` is false.
-/

theorem validate_loop_eq_vrun (l : List Char) : ∀ q : VConfig,
    lookahead_fail q l = false → validate_loop q l = vrun (some q) l := by
  induction l with
  | nil => intro q _; rfl
  | cons c rest ih =>
    intro q hq
    have hpend : ¬ (q.lastSub = true ∧ roman_value c > q.lastSubVal) := by
      intro ⟨h1, h2⟩
      simp [lookahead_fail, h1, h2] at hq
    show validate_loop q (c :: rest) = vrun (vstep q c) rest
    rw [vstep, if_neg hpend]
    show (match vbody q c with
      | none => false
      | some q2 => if lookahead_fail q2 rest then false else validate_loop q2 rest) =
      vrun (vbody q c) rest
    cases hb : vbody q c with
    | none => cases rest <;> rfl
    | some q2 =>
      show (if lookahead_fail q2 rest then false else validate_loop q2 rest) =
        vrun (some q2) rest
      cases hl : lookahead_fail q2 rest with
      | true =>
        cases rest with
        | nil => simp [lookahead_fail] at hl
        | cons c2 rest2 =>
          have : vstep q2 c2 = none := by
            rw [vstep, if_pos]
            simp only [lookahead_fail, Bool.and_eq_true, decide_eq_true_eq] at hl
            exact ⟨hl.1, hl.2⟩
          simp [vrun, this]
      | false => simp [ih q2 hl]

theorem validate_roman_eq_vrun (s : String) :
    validate_roman s = vrun (some initConfig) s.data := by
  apply validate_loop_eq_vrun
  simp [lookahead_fail, initConfig]

/-!
## Lockstep lemmas for characters outside the symbol table
-/

theorem vstep_value_zero (q : VConfig) (c : Char) (h : roman_value c = 0) :
    vstep q c = none := by
  rw [vstep]
  split
  · rfl
  · simp [vbody, h]

theorem rstep_value_zero (r : RState) (c : Char) (h : roman_value c = 0) :
    rstep r c = RState.dead := by
  simp [rstep, h, rstep']

theorem rstep_dead (c : Char) : rstep RState.dead c = RState.dead := by
  rw [rstep, rstep']
  repeat' split
  all_goals rfl

theorem rfold_dead (l : List Char) : rfold RState.dead l = RState.dead := by
  induction l with
  | nil => rfl
  | cons c rest ih =>
    show rfold (rstep RState.dead c) rest = RState.dead
    rw [rstep_dead]; exact ih

theorem raccept_dead (l : List Char) : raccept RState.dead l = false := by
  rw [raccept, rfold_dead]; rfl

theorem isLive_false_eq_dead (r : RState) (h : isLive r = false) :
    r = RState.dead := by
  cases r <;> simp [isLive] at h ⊢

theorem idxR_rIdx (r : RState) : idxR (rIdx r) = r := by
  cases r <;> rfl

theorem cfgBeq_eq (a b : VConfig) (h : cfgBeq a b = true) : a = b := by
  cases a; cases b
  simp only [cfgBeq, Bool.and_eq_true, beq_iff_eq] at h
  obtain ⟨⟨⟨⟨⟨⟨⟨⟨h1, h2⟩, h3⟩, h4⟩, h5⟩, h6⟩, h7⟩, h8⟩, h9⟩ := h
  simp_all

theorem roman_value_cases (c : Char) :
    roman_value c = 0 ∨ c ∈ alphabetChars := by
  rw [roman_value]
  split
  · right; simp_all [alphabetChars]
  split
  · right; simp_all [alphabetChars]
  split
  · right; simp_all [alphabetChars]
  split
  · right; simp_all [alphabetChars]
  split
  · right; simp_all [alphabetChars]
  split
  · right; simp_all [alphabetChars]
  split
  · right; simp_all [alphabetChars]
  left; rfl

/-!
## The bisimulation argument

From the checked certificate `good_closed`, the validator and the DFA accept
the same strings from any paired pair of states, hence from their initial
states: `validate_roman` agrees with the DFA on every string whatsoever.
-/

theorem vrun_none (l : List Char) : vrun none l = false := by
  cases l <;> rfl

theorem good_inv : ∀ (l : List Char), ∀ n ∈ goodEnc,
    vrun (some (decodeCfg n)) l = raccept (decodeR n) l := by
  have hall := good_closed_eq
  rw [good_closed, List.all_eq_true] at hall
  intro l
  induction l with
  | nil =>
    intro n hn
    have h := hall n hn
    rw [Bool.and_eq_true] at h
    show true = raccept (decodeR n) []
    rw [raccept]
    exact (h.1).symm
  | cons c rest ih =>
    intro n hn
    have h := hall n hn
    rw [Bool.and_eq_true, List.all_eq_true] at h
    show vrun (vstep (decodeCfg n) c) rest = raccept (decodeR n) (c :: rest)
    have hacc : raccept (decodeR n) (c :: rest) = raccept (rstep (decodeR n) c) rest := rfl
    rw [hacc]
    rcases roman_value_cases c with hzero | halpha
    · rw [vstep_value_zero _ _ hzero, rstep_value_zero _ _ hzero,
        vrun_none, raccept_dead]
    · have hok := h.2 c halpha
      rw [stepOk] at hok
      cases hv : vstep (decodeCfg n) c with
      | none =>
        rw [hv] at hok
        simp only [Bool.not_eq_true'] at hok
        rw [isLive_false_eq_dead _ hok, vrun_none, raccept_dead]
      | some q2 =>
        rw [hv] at hok
        simp only [Bool.and_eq_true, beq_iff_eq] at hok
        obtain ⟨⟨⟨hlive, hmem⟩, hbeq⟩, hidx⟩ := hok
        have hmem' : encodePair q2 (rstep (decodeR n) c) ∈ goodEnc :=
          List.mem_of_elem_eq_true hmem
        have hcfg : decodeCfg (encodePair q2 (rstep (decodeR n) c)) = q2 :=
          cfgBeq_eq _ _ hbeq
        have hrst : decodeR (encodePair q2 (rstep (decodeR n) c)) =
            rstep (decodeR n) c := by
          have := congrArg idxR hidx
          rwa [idxR_rIdx, idxR_rIdx] at this
        have := ih _ hmem'
        rwa [hcfg, hrst] at this

theorem validate_eq_raccept (s : String) :
    validate_roman s = raccept RState.r0 s.data := by
  rw [validate_roman_eq_vrun]
  have h0 : (145408 : Nat) ∈ goodEnc := by decide
  have hc : decodeCfg 145408 = initConfig := by decide
  have hr : decodeR 145408 = RState.r0 := by decide
  have := good_inv s.data 145408 h0
  rwa [hc, hr] at this

/-!
## Digit-indexed pieces of a canonical numeral

A canonical numeral is determined by the four decimal digits of its value:
`Tstr a ++ Hstr b ++ TeStr c ++ Ustr d` for `n = 1000a + 100b + 10c + d`
(with `a ≤ 3`).  Each piece is one branch of the corresponding group of the
pattern, and `digitState` is the DFA state reached after reading the whole
concatenation.
-/

/-- The thousands piece for digit `a`: one branch of `M{0,3}`. -/
def Tstr : Nat → String
  | 1 => "M" | 2 => "MM" | 3 => "MMM" | _ => ""

/-- The hundreds piece for digit `b`: one branch of `(CM|CD|D?C{0,3})`. -/
def Hstr : Nat → String
  | 1 => "C" | 2 => "CC" | 3 => "CCC" | 4 => "CD"
  | 5 => "D" | 6 => "DC" | 7 => "DCC" | 8 => "DCCC" | 9 => "CM" | _ => ""

/-- The tens piece for digit `c`: one branch of `(XC|XL|L?X{0,3})`. -/
def TeStr : Nat → String
  | 1 => "X" | 2 => "XX" | 3 => "XXX" | 4 => "XL"
  | 5 => "L" | 6 => "LX" | 7 => "LXX" | 8 => "LXXX" | 9 => "XC" | _ => ""

/-- The units piece for digit `d`: one branch of `(IX|IV|V?I{0,3})`. -/
def Ustr : Nat → String
  | 1 => "I" | 2 => "II" | 3 => "III" | 4 => "IV"
  | 5 => "V" | 6 => "VI" | 7 => "VII" | 8 => "VIII" | 9 => "IX" | _ => ""

/-- The canonical numeral assembled from the four digits. -/
def catDigits (a b c d : Nat) : String :=
  Tstr a ++ Hstr b ++ TeStr c ++ Ustr d

/-- DFA state after `Tstr a`. -/
def mState : Nat → RState
  | 1 => .m1 | 2 => .m2 | 3 => .m3 | _ => .r0

/-- DFA state after a nonempty hundreds piece `Hstr b`, `1 ≤ b ≤ 9`. -/
def hState : Nat → RState
  | 1 => .c1 | 2 => .c2 | 3 => .c3 | 4 => .cd
  | 5 => .d0 | 6 => .dc1 | 7 => .dc2 | 8 => .dc3 | 9 => .cm | _ => .dead

/-- DFA state after a nonempty tens piece `TeStr c`, `1 ≤ c ≤ 9`. -/
def tState : Nat → RState
  | 1 => .x1 | 2 => .x2 | 3 => .x3 | 4 => .xl
  | 5 => .l0 | 6 => .lx1 | 7 => .lx2 | 8 => .lx3 | 9 => .xc | _ => .dead

/-- DFA state after a nonempty units piece `Ustr d`, `1 ≤ d ≤ 9`. -/
def uState : Nat → RState
  | 1 => .i1 | 2 => .i2 | 3 => .i3 | 4 => .iv
  | 5 => .v0 | 6 => .vi1 | 7 => .vi2 | 8 => .vi3 | 9 => .ix | _ => .dead

/-- DFA state after reading `catDigits a b c d`. -/
def digitState (a b c d : Nat) : RState :=
  if 0 < d then uState d
  else if 0 < c then tState c
  else if 0 < b then hState b
  else mState a

/-- The DFA states that can occur right after the (possibly empty) `M{0,3}`
part. -/
def postThousands : List RState := [.r0, .m1, .m2, .m3]

/-- The DFA states that can occur right after the hundreds group. -/
def postHundreds : List RState :=
  postThousands ++ [.c1, .c2, .c3, .cm, .cd, .d0, .dc1, .dc2, .dc3]

/-- The DFA states that can occur right after the tens group. -/
def postTens : List RState :=
  postHundreds ++ [.x1, .x2, .x3, .xc, .xl, .l0, .lx1, .lx2, .lx3]

theorem rfold_Tstr : ∀ a < 4, rfold .r0 (Tstr a).data = mState a := by decide

theorem rfold_Hstr : ∀ b < 10, ∀ q ∈ postThousands,
    rfold q (Hstr b).data = if 0 < b then hState b else q := by decide

theorem rfold_TeStr : ∀ c < 10, ∀ q ∈ postHundreds,
    rfold q (TeStr c).data = if 0 < c then tState c else q := by decide

theorem rfold_Ustr : ∀ d < 10, ∀ q ∈ postTens,
    rfold q (Ustr d).data = if 0 < d then uState d else q := by decide

theorem mState_mem : ∀ a < 4, mState a ∈ postThousands := by decide

theorem hState_mem : ∀ b < 10, 0 < b → hState b ∈ postHundreds := by decide

theorem tState_mem : ∀ c < 10, 0 < c → tState c ∈ postTens := by decide

theorem postThousands_sub : ∀ q ∈ postThousands, q ∈ postHundreds := by decide

theorem postHundreds_sub : ∀ q ∈ postHundreds, q ∈ postTens := by decide

theorem rfold_append (q : RState) (l1 l2 : List Char) :
    rfold q (l1 ++ l2) = rfold (rfold q l1) l2 := by
  simp [rfold, List.foldl_append]

/-- The DFA path lemma: reading the canonical numeral of the digits
`(a, b, c, d)` from the start state ends in `digitState a b c d`. -/
theorem rfold_catDigits (a b c d : Nat) (ha : a < 4) (hb : b < 10)
    (hc : c < 10) (hd : d < 10) :
    rfold .r0 (catDigits a b c d).data = digitState a b c d := by
  have hdata : (catDigits a b c d).data =
      (Tstr a).data ++ ((Hstr b).data ++ ((TeStr c).data ++ (Ustr d).data)) := by
    simp [catDigits, String.data_append]
  rw [hdata, rfold_append, rfold_append, rfold_append]
  rw [rfold_Tstr a ha]
  have h1 : mState a ∈ postThousands := mState_mem a ha
  rw [rfold_Hstr b hb _ h1]
  have h2 : (if 0 < b then hState b else mState a) ∈ postHundreds := by
    split
    · exact hState_mem b hb (by omega)
    · exact postThousands_sub _ h1
  rw [rfold_TeStr c hc _ h2]
  have h3 : (if 0 < c then tState c else if 0 < b then hState b else mState a) ∈
      postTens := by
    split
    · exact tState_mem c hc (by omega)
    · exact postHundreds_sub _ h2
  rw [rfold_Ustr d hd _ h3]
  rw [digitState]

theorem digitState_live : ∀ a < 4, ∀ b < 10, ∀ c < 10, ∀ d < 10,
    isLive (digitState a b c d) = true := by decide

/-!
## The greedy converter, digit by digit

The greedy loop of `int_converter` processes the table entry by entry; after
the `(1000, "M")` entry the remaining amount is `n % 1000`, and the remaining
table is `hundreds_table`.  On amounts below 1000 the remaining entries
produce exactly the hundreds, tens and units pieces of the digits.
-/

/-- The conversion table from the `(900, "CM")` entry on. -/
def hundreds_table : List (Nat × String) :=
  [(900, "CM"), (500, "D"), (400, "CD"), (100, "C"), (90, "XC"),
   (50, "L"), (40, "XL"), (10, "X"), (9, "IX"), (5, "V"), (4, "IV"), (1, "I")]

theorem conversion_table_cons :
    conversion_table = (1000, "M") :: hundreds_table := rfl

theorem repeat_symbol_M : ∀ k < 4, repeat_symbol "M" k = Tstr k := by decide

theorem go_hundreds : ∀ m < 1000, int_converter_go hundreds_table m =
    Hstr (m / 100) ++ TeStr (m % 100 / 10) ++ Ustr (m % 10) := by decide

/-- `int_converter` produces exactly the digit-indexed concatenation. -/
theorem int_converter_eq_catDigits (n : Nat) (hn : n ≤ 3999) :
    int_converter n =
      catDigits (n / 1000) (n % 1000 / 100) (n % 100 / 10) (n % 10) := by
  rcases Nat.eq_zero_or_pos n with h0 | h0
  · subst h0; rfl
  · have hstep : int_converter n =
        repeat_symbol "M" (n / 1000) ++ int_converter_go hundreds_table (n % 1000) := by
      rw [int_converter, conversion_table_cons]
      show (if 0 < n then _ else "") = _
      rw [if_pos h0]
    rw [hstep]
    rw [repeat_symbol_M (n / 1000) (by omega)]
    rw [go_hundreds (n % 1000) (by omega)]
    have e1 : n % 1000 / 100 = n % 1000 / 100 := rfl
    have e2 : n % 1000 % 100 = n % 100 := by omega
    have e3 : n % 1000 % 10 = n % 10 := by omega
    rw [e2, e3, catDigits]
    simp [String.append_assoc]

/-!
## The evaluator, digit by digit

To evaluate a concatenation piecewise, `rcP` generalizes
`roman_converter_list` by a parameter giving the value of the character that
follows the processed list (0 at the very end of the string, exactly as the
C code supplies 0 beyond the terminator).
-/

/-- `roman_converter_list` with an explicit value for the character following
the list. -/
def rcP : List Char → Nat → Int
  | [], _ => 0
  | c :: rest, after =>
    let current_value : Int := roman_value c
    let next_value : Int := firstVal rest after
    (if current_value < next_value then -current_value else current_value) +
      rcP rest after

theorem roman_converter_list_eq_rcP (l : List Char) :
    roman_converter_list l = rcP l 0 := by
  induction l with
  | nil => rfl
  | cons c rest ih => simp only [roman_converter_list, rcP, ih]

theorem firstVal_append (xs ys : List Char) (a : Nat) :
    firstVal (xs ++ ys) a = firstVal xs (firstVal ys a) := by
  cases xs <;> simp [firstVal]

theorem rcP_append (l1 l2 : List Char) (after : Nat) :
    rcP (l1 ++ l2) after = rcP l1 (firstVal l2 after) + rcP l2 after := by
  induction l1 with
  | nil => simp [rcP, firstVal]
  | cons c rest ih =>
    simp only [List.cons_append, rcP, List.append_eq, firstVal_append, ih]
    ring

theorem rcP_Ustr : ∀ d < 10, rcP (Ustr d).data 0 = (d : Int) := by decide

theorem rcP_TeStr : ∀ c < 10, ∀ v ∈ [0, 1, 5],
    rcP (TeStr c).data v = ((10 * c : Nat) : Int) := by decide

theorem rcP_Hstr : ∀ b < 10, ∀ v ∈ [0, 1, 5, 10, 50],
    rcP (Hstr b).data v = ((100 * b : Nat) : Int) := by decide

theorem rcP_Tstr : ∀ a < 4, ∀ v ∈ [0, 1, 5, 10, 50, 100, 500],
    rcP (Tstr a).data v = ((1000 * a : Nat) : Int) := by decide

theorem firstVal_Ustr : ∀ d < 10, firstVal (Ustr d).data 0 ∈ [0, 1, 5] := by
  decide

theorem firstVal_TeStr : ∀ c < 10, ∀ v ∈ [0, 1, 5],
    firstVal (TeStr c).data v ∈ [0, 1, 5, 10, 50] := by decide

theorem firstVal_Hstr : ∀ b < 10, ∀ v ∈ [0, 1, 5, 10, 50],
    firstVal (Hstr b).data v ∈ [0, 1, 5, 10, 50, 100, 500] := by decide

/-- Evaluating the digit-indexed concatenation gives back the value. -/
theorem roman_converter_catDigits (a b c d : Nat) (ha : a < 4) (hb : b < 10)
    (hc : c < 10) (hd : d < 10) :
    roman_converter (catDigits a b c d) =
      ((1000 * a + 100 * b + 10 * c + d : Nat) : Int) := by
  rw [roman_converter]
  have hdata : (catDigits a b c d).data =
      (Tstr a).data ++ ((Hstr b).data ++ ((TeStr c).data ++ (Ustr d).data)) := by
    simp [catDigits, String.data_append]
  rw [hdata, roman_converter_list_eq_rcP]
  rw [rcP_append, rcP_append, rcP_append]
  rw [firstVal_append, firstVal_append]
  have m3 : firstVal (Ustr d).data 0 ∈ [0, 1, 5] := firstVal_Ustr d hd
  have m2 : firstVal (TeStr c).data (firstVal (Ustr d).data 0) ∈
      [0, 1, 5, 10, 50] := firstVal_TeStr c hc _ m3
  have m1 : firstVal (Hstr b).data
      (firstVal (TeStr c).data (firstVal (Ustr d).data 0)) ∈
      [0, 1, 5, 10, 50, 100, 500] := firstVal_Hstr b hb _ m2
  rw [rcP_Tstr a ha _ m1, rcP_Hstr b hb _ m2, rcP_TeStr c hc _ m3, rcP_Ustr d hd]
  push_cast
  ring

/-- Round trip on the digit decomposition: evaluating the converted numeral
returns the value. -/
theorem roman_converter_int_converter (n : Nat) (hn : n ≤ 3999) :
    roman_converter (int_converter n) = (n : Int) := by
  rw [int_converter_eq_catDigits n hn]
  rw [roman_converter_catDigits _ _ _ _ (by omega) (by omega) (by omega) (by omega)]
  congr 1
  omega

/-!
## DFA-accepted strings are canonical numerals

By induction from the right: a nonempty accepted string is an accepted
string followed by one more symbol, and appending one surviving symbol to a
canonical numeral yields a canonical numeral again — checked digit-group by
digit-group (`ext_units` … `ext_thousands_other`).
-/

theorem data_singleton (c : Char) : (String.singleton c).data = [c] := rfl

theorem ext_units : ∀ d < 10, 0 < d → ∀ ch ∈ alphabetChars,
    isLive (rstep (uState d) ch) = true →
    ∃ d', d' < 10 ∧ Ustr d ++ String.singleton ch = Ustr d' := by decide

theorem ext_tens : ∀ c < 10, 0 < c → ∀ ch ∈ alphabetChars,
    isLive (rstep (tState c) ch) = true →
    ∃ c', c' < 10 ∧ ∃ d', d' < 10 ∧
      TeStr c ++ String.singleton ch = TeStr c' ++ Ustr d' := by decide

theorem ext_hundreds : ∀ b < 10, 0 < b → ∀ ch ∈ alphabetChars,
    isLive (rstep (hState b) ch) = true →
    ∃ b', b' < 10 ∧ ∃ c', c' < 10 ∧ ∃ d', d' < 10 ∧
      Hstr b ++ String.singleton ch = Hstr b' ++ TeStr c' ++ Ustr d' := by decide

theorem ext_thousands_M : ∀ a < 3, Tstr a ++ "M" = Tstr (a + 1) := by decide

theorem live_M : ∀ a < 4, isLive (rstep (mState a) 'M') = true → a < 3 := by
  decide

theorem ext_thousands_other : ∀ ch ∈ ['D', 'C', 'L', 'X', 'V', 'I'],
    ∃ b', b' < 10 ∧ ∃ c', c' < 10 ∧ ∃ d', d' < 10 ∧
      String.singleton ch = Hstr b' ++ TeStr c' ++ Ustr d' := by decide

/-- Every digit combination yields a value at most 3999 whose conversion is
the digit-indexed concatenation. -/
theorem build_canonical (a b c d : Nat) (ha : a < 4) (hb : b < 10)
    (hc : c < 10) (hd : d < 10) :
    ∃ n, n ≤ 3999 ∧ int_converter n = catDigits a b c d := by
  refine ⟨1000 * a + 100 * b + 10 * c + d, by omega, ?_⟩
  rw [int_converter_eq_catDigits _ (by omega)]
  have e1 : (1000 * a + 100 * b + 10 * c + d) / 1000 = a := by omega
  have e2 : (1000 * a + 100 * b + 10 * c + d) % 1000 / 100 = b := by omega
  have e3 : (1000 * a + 100 * b + 10 * c + d) % 100 / 10 = c := by omega
  have e4 : (1000 * a + 100 * b + 10 * c + d) % 10 = d := by omega
  rw [e1, e2, e3, e4]

/-- The DFA accepts the conversion of every value in range. -/
theorem canonical_raccept (n : Nat) (hn : n ≤ 3999) :
    raccept RState.r0 (int_converter n).data = true := by
  rw [int_converter_eq_catDigits n hn, raccept,
    rfold_catDigits _ _ _ _ (by omega) (by omega) (by omega) (by omega)]
  exact digitState_live _ (by omega) _ (by omega) _ (by omega) _ (by omega)

/-- Every string the DFA accepts is the conversion of some value at most
3999 (`n = 0` giving the empty string). -/
theorem raccept_imp_canonical : ∀ l : List Char,
    raccept RState.r0 l = true → ∃ n, n ≤ 3999 ∧ l = (int_converter n).data := by
  intro l
  induction l using List.reverseRecOn with
  | nil => intro _; exact ⟨0, by omega, rfl⟩
  | append_singleton l2 ch ih =>
    intro h
    have hlast : rfold RState.r0 (l2 ++ [ch]) = rstep (rfold RState.r0 l2) ch := by
      rw [rfold_append]; rfl
    have hlive2 : isLive (rfold RState.r0 l2) = true := by
      cases hq : isLive (rfold RState.r0 l2)
      · exfalso
        have hd := isLive_false_eq_dead _ hq
        rw [raccept, hlast, hd, rstep_dead] at h
        simp [isLive] at h
      · rfl
    obtain ⟨n, hn, hl⟩ := ih hlive2
    have hD1 := int_converter_eq_catDigits n hn
    have hfold : rfold RState.r0 l2 =
        digitState (n / 1000) (n % 1000 / 100) (n % 100 / 10) (n % 10) := by
      rw [hl, hD1]
      exact rfold_catDigits _ _ _ _ (by omega) (by omega) (by omega) (by omega)
    have hstep : isLive (rstep
        (digitState (n / 1000) (n % 1000 / 100) (n % 100 / 10) (n % 10)) ch) = true := by
      rw [raccept, hlast, hfold] at h
      exact h
    have hchar : ch ∈ alphabetChars := by
      rcases roman_value_cases ch with h0 | hmem
      · exfalso; rw [rstep_value_zero _ _ h0] at hstep; simp [isLive] at hstep
      · exact hmem
    by_cases hd0 : 0 < n % 10
    · -- the units group is extended
      have hds : digitState (n / 1000) (n % 1000 / 100) (n % 100 / 10) (n % 10) =
          uState (n % 10) := by rw [digitState, if_pos hd0]
      rw [hds] at hstep
      obtain ⟨d', hd', heq⟩ := ext_units (n % 10) (by omega) hd0 ch hchar hstep
      obtain ⟨n', hn', hcat⟩ := build_canonical (n / 1000) (n % 1000 / 100)
        (n % 100 / 10) d' (by omega) (by omega) (by omega) hd'
      refine ⟨n', hn', ?_⟩
      rw [hl, hD1, ← data_singleton ch, ← String.data_append, hcat]
      congr 1
      simp only [catDigits, String.append_assoc]
      rw [heq]
    · by_cases hc0 : 0 < n % 100 / 10
      · -- the tens group is extended
        have hds : digitState (n / 1000) (n % 1000 / 100) (n % 100 / 10) (n % 10) =
            tState (n % 100 / 10) := by
          rw [digitState, if_neg hd0, if_pos hc0]
        rw [hds] at hstep
        obtain ⟨c', hc', d', hd', heq⟩ :=
          ext_tens (n % 100 / 10) (by omega) hc0 ch hchar hstep
        obtain ⟨n', hn', hcat⟩ := build_canonical (n / 1000) (n % 1000 / 100)
          c' d' (by omega) (by omega) hc' hd'
        refine ⟨n', hn', ?_⟩
        rw [hl, hD1, ← data_singleton ch, ← String.data_append, hcat]
        congr 1
        have hu0 : n % 10 = 0 := by omega
        simp only [catDigits, hu0, String.append_assoc]
        show _ ++ (_ ++ (TeStr (n % 100 / 10) ++ (Ustr 0 ++ String.singleton ch))) = _
        have : Ustr 0 ++ String.singleton ch = String.singleton ch := rfl
        rw [this, heq]
      · by_cases hb0 : 0 < n % 1000 / 100
        · -- the hundreds group is extended
          have hds : digitState (n / 1000) (n % 1000 / 100) (n % 100 / 10) (n % 10) =
              hState (n % 1000 / 100) := by
            rw [digitState, if_neg hd0, if_neg hc0, if_pos hb0]
          rw [hds] at hstep
          obtain ⟨b', hb', c', hc', d', hd', heq⟩ :=
            ext_hundreds (n % 1000 / 100) (by omega) hb0 ch hchar hstep
          obtain ⟨n', hn', hcat⟩ := build_canonical (n / 1000) b' c' d'
            (by omega) hb' hc' hd'
          refine ⟨n', hn', ?_⟩
          rw [hl, hD1, ← data_singleton ch, ← String.data_append, hcat]
          congr 1
          have hu0 : n % 10 = 0 := by omega
          have ht0 : n % 100 / 10 = 0 := by omega
          simp only [catDigits, hu0, ht0, String.append_assoc]
          show _ ++ (Hstr (n % 1000 / 100) ++ (TeStr 0 ++ (Ustr 0 ++ String.singleton ch))) = _
          have : TeStr 0 ++ (Ustr 0 ++ String.singleton ch) = String.singleton ch := rfl
          rw [this, heq]
          simp [String.append_assoc]
        · -- only thousands present
          have hds : digitState (n / 1000) (n % 1000 / 100) (n % 100 / 10) (n % 10) =
              mState (n / 1000) := by
            rw [digitState, if_neg hd0, if_neg hc0, if_neg hb0]
          rw [hds] at hstep
          have hu0 : n % 10 = 0 := by omega
          have ht0 : n % 100 / 10 = 0 := by omega
          have hh0 : n % 1000 / 100 = 0 := by omega
          have hchM : ch = 'M' ∨ ch ∈ ['D', 'C', 'L', 'X', 'V', 'I'] := by
            simp only [alphabetChars, List.mem_cons, List.not_mem_nil, or_false] at hchar
            rcases hchar with rfl | rfl | rfl | rfl | rfl | rfl | rfl <;> simp
          rcases hchM with rfl | hmem
          · -- appending another M
            have ha3 : n / 1000 < 3 := live_M (n / 1000) (by omega) hstep
            obtain ⟨n', hn', hcat⟩ := build_canonical (n / 1000 + 1) 0 0 0
              (by omega) (by omega) (by omega) (by omega)
            refine ⟨n', hn', ?_⟩
            rw [hl, hD1, ← data_singleton 'M', ← String.data_append, hcat]
            congr 1
            simp only [catDigits, hu0, ht0, hh0, String.append_assoc]
            show Tstr (n / 1000) ++ (Hstr 0 ++ (TeStr 0 ++ (Ustr 0 ++ String.singleton 'M'))) = _
            have h1 : Hstr 0 ++ (TeStr 0 ++ (Ustr 0 ++ String.singleton 'M')) = "M" := rfl
            rw [h1, ext_thousands_M _ ha3]
            have h2 : Hstr 0 ++ (TeStr 0 ++ Ustr 0) = "" := rfl
            show _ = Tstr (n / 1000 + 1) ++ (Hstr 0 ++ (TeStr 0 ++ Ustr 0))
            rw [h2]
            exact (String.append_empty _).symm
          · -- appending a smaller symbol starts a lower group
            obtain ⟨b', hb', c', hc', d', hd', heq⟩ := ext_thousands_other ch hmem
            obtain ⟨n', hn', hcat⟩ := build_canonical (n / 1000) b' c' d'
              (by omega) hb' hc' hd'
            refine ⟨n', hn', ?_⟩
            rw [hl, hD1, ← data_singleton ch, ← String.data_append, hcat]
            congr 1
            simp only [catDigits, hu0, ht0, hh0, String.append_assoc]
            show Tstr (n / 1000) ++ (Hstr 0 ++ (TeStr 0 ++ (Ustr 0 ++ String.singleton ch))) = _
            have h1 : Hstr 0 ++ (TeStr 0 ++ (Ustr 0 ++ String.singleton ch)) =
                String.singleton ch := rfl
            rw [h1, heq]
            simp [String.append_assoc]

/-!
## The two validators and the canonical set

Both validators accept exactly the conversions of the values 0..3999, where
`n = 0` yields the empty string: the pattern by construction, the structural
validator through the bisimulation.
-/

theorem group_thousands_exists : ∀ t ∈ thousands_group,
    ∃ a, a < 4 ∧ t = Tstr a := by decide

theorem group_hundreds_exists : ∀ h ∈ hundreds_group,
    ∃ b, b < 10 ∧ h = Hstr b := by decide

theorem group_tens_exists : ∀ te ∈ tens_group,
    ∃ c, c < 10 ∧ te = TeStr c := by decide

theorem group_units_exists : ∀ u ∈ units_group,
    ∃ d, d < 10 ∧ u = Ustr d := by decide

theorem Tstr_mem : ∀ a < 4, Tstr a ∈ thousands_group := by decide

theorem Hstr_mem : ∀ b < 10, Hstr b ∈ hundreds_group := by decide

theorem TeStr_mem : ∀ c < 10, TeStr c ∈ tens_group := by decide

theorem Ustr_mem : ∀ d < 10, Ustr d ∈ units_group := by decide

/-- The pattern validator accepts exactly the conversions of 0..3999. -/
theorem regex_roman_iff (s : String) :
    regex_roman s = true ↔ ∃ n, n ≤ 3999 ∧ s = int_converter n := by
  rw [regex_roman]
  constructor
  · intro h
    rw [List.any_eq_true] at h
    obtain ⟨t, ht, h⟩ := h
    rw [List.any_eq_true] at h
    obtain ⟨hh, hhm, h⟩ := h
    rw [List.any_eq_true] at h
    obtain ⟨te, htem, h⟩ := h
    rw [List.any_eq_true] at h
    obtain ⟨u, hum, h⟩ := h
    rw [beq_iff_eq] at h
    obtain ⟨a, ha, rfl⟩ := group_thousands_exists t ht
    obtain ⟨b, hb, rfl⟩ := group_hundreds_exists hh hhm
    obtain ⟨c, hc, rfl⟩ := group_tens_exists te htem
    obtain ⟨d, hd, rfl⟩ := group_units_exists u hum
    obtain ⟨n, hn, hcat⟩ := build_canonical a b c d ha hb hc hd
    refine ⟨n, hn, ?_⟩
    rw [h, hcat]
    rfl
  · rintro ⟨n, hn, rfl⟩
    have hD1 := int_converter_eq_catDigits n hn
    rw [List.any_eq_true]
    refine ⟨Tstr (n / 1000), Tstr_mem _ (by omega), ?_⟩
    rw [List.any_eq_true]
    refine ⟨Hstr (n % 1000 / 100), Hstr_mem _ (by omega), ?_⟩
    rw [List.any_eq_true]
    refine ⟨TeStr (n % 100 / 10), TeStr_mem _ (by omega), ?_⟩
    rw [List.any_eq_true]
    refine ⟨Ustr (n % 10), Ustr_mem _ (by omega), ?_⟩
    rw [beq_iff_eq, hD1]
    rfl

/-- The structural validator accepts exactly the conversions of 0..3999. -/
theorem validate_roman_iff (s : String) :
    validate_roman s = true ↔ ∃ n, n ≤ 3999 ∧ s = int_converter n := by
  rw [validate_eq_raccept]
  constructor
  · intro h
    obtain ⟨n, hn, hdat⟩ := raccept_imp_canonical s.data h
    exact ⟨n, hn, String.ext hdat⟩
  · rintro ⟨n, hn, rfl⟩
    exact canonical_raccept n hn

/-- The two validation engines agree on every string. -/
theorem validate_eq_regex (s : String) : validate_roman s = regex_roman s := by
  cases hv : validate_roman s
  · cases hr : regex_roman s
    · rfl
    · exfalso
      have h1 := (regex_roman_iff s).1 hr
      have h2 := (validate_roman_iff s).2 h1
      rw [hv] at h2
      cases h2
  · exact ((regex_roman_iff s).2 ((validate_roman_iff s).1 hv)).symm

/-- A conversion of a positive in-range value is never the empty string. -/
theorem int_converter_ne_empty (n : Nat) (h1 : 1 ≤ n) (hn : n ≤ 3999) :
    int_converter n ≠ "" := by
  intro h
  have hrt := roman_converter_int_converter n hn
  rw [h] at hrt
  have h0 : roman_converter "" = 0 := rfl
  rw [h0] at hrt
  omega

theorem catDigits_length : ∀ a < 4, ∀ b < 10, ∀ c < 10, ∀ d < 10,
    (catDigits a b c d).length ≤ 15 := by decide

theorem catDigits_count : ∀ a < 4, ∀ b < 10, ∀ c < 10, ∀ d < 10,
    (catDigits a b c d).data.count 'V' ≤ 1 ∧
    (catDigits a b c d).data.count 'L' ≤ 1 ∧
    (catDigits a b c d).data.count 'D' ≤ 1 := by decide

/-!
## The claims
-/

/-- C1, as stated, is false: the claim quantifies over every string over
{I,V,X,L,C,D,M}, and the empty string is (vacuously) such a string, yet
`validate_roman` accepts it (the scan loop never runs) while it is not
`int_converter n` for any n in [1,3999]. -/
theorem claim_C1_counterexample :
    ¬ (∀ s : String, (∀ c ∈ s.data, c ∈ alphabetChars) →
      (validate_roman s = true ↔
        ∃ n, 1 ≤ n ∧ n ≤ 3999 ∧ s = int_converter n)) := by
  intro h
  have he := (h "" (by simp)).1 (by decide)
  obtain ⟨n, h1, h2, h3⟩ := he
  exact int_converter_ne_empty n h1 h2 h3.symm

/-- C1 (amended to non-empty strings): for every non-empty string over
{I,V,X,L,C,D,M}, `validate_roman` accepts it iff it is the canonical form
`int_converter n` of some n in [1,3999]; every malformed variant is
rejected. -/
theorem claim_C1 (s : String) (hne : s ≠ "")
    (_halpha : ∀ c ∈ s.data, c ∈ alphabetChars) :
    validate_roman s = true ↔ ∃ n, 1 ≤ n ∧ n ≤ 3999 ∧ s = int_converter n := by
  constructor
  · intro h
    obtain ⟨n, hn, rfl⟩ := (validate_roman_iff s).1 h
    refine ⟨n, ?_, hn, rfl⟩
    rcases Nat.eq_zero_or_pos n with h0 | h0
    · subst h0; exact absurd rfl hne
    · omega
  · rintro ⟨n, h1, h2, rfl⟩
    exact (validate_roman_iff _).2 ⟨n, h2, rfl⟩

theorem claim_C1_witness :
    validate_roman "IV" = true ↔
      ∃ n, 1 ≤ n ∧ n ≤ 3999 ∧ "IV" = int_converter n :=
  claim_C1 "IV" (by decide) (by decide)

/-- C2: on every string of length at most 15 over {I,V,X,L,C,D,M}, the
structural validator and the pattern validator agree (they in fact agree on
every string). -/
theorem claim_C2 (s : String) (_hlen : s.length ≤ 15)
    (_halpha : ∀ c ∈ s.data, c ∈ alphabetChars) :
    validate_roman s = regex_roman s :=
  validate_eq_regex s

theorem claim_C2_witness :
    validate_roman "MCMXCIV" = regex_roman "MCMXCIV" :=
  claim_C2 "MCMXCIV" (by decide) (by decide)

/-- C3: for every n in [1,3999], evaluating the converted numeral returns n,
and the converted numeral passes the structural validator; in particular
n = 1 yields "I" and n = 3999 yields "MMMCMXCIX". -/
theorem claim_C3 :
    (∀ n : Nat, 1 ≤ n → n ≤ 3999 →
      roman_converter (int_converter n) = (n : Int) ∧
      validate_roman (int_converter n) = true) ∧
    int_converter 1 = "I" ∧ int_converter 3999 = "MMMCMXCIX" :=
  ⟨fun n _ h2 => ⟨roman_converter_int_converter n h2,
    (validate_roman_iff _).2 ⟨n, h2, rfl⟩⟩, by decide, by decide⟩

theorem claim_C3_witness :
    roman_converter (int_converter 1994) = (1994 : Int) ∧
    validate_roman (int_converter 1994) = true :=
  claim_C3.1 1994 (by decide) (by decide)

/-- C4, as stated, is false: neither validator treats the empty string as
invalid — both return true on "" (the scan loop never runs, and the pattern
matches "" with every group empty). -/
theorem claim_C4_counterexample :
    ¬ (validate_roman "" = false ∧ regex_roman "" = false) := by decide

/-- C4 (amended): both validators accept the empty string; rejecting empty
input is the caller's job (`validate_input` returns `EXIT_EMPTY_ERR` before
any validator runs). -/
theorem claim_C4 : validate_roman "" = true ∧ regex_roman "" = true := by
  decide

/-- C5: `int_converter` is a function of n (deterministic by construction),
and its output is a shortest accepted representation: any accepted string
evaluating to n is at least as long. -/
theorem claim_C5 (n : Nat) (h1 : 1 ≤ n) (h2 : n ≤ 3999) (s : String)
    (hne : s ≠ "") (hval : validate_roman s = true)
    (hconv : roman_converter s = (n : Int)) :
    (int_converter n).length ≤ s.length := by
  obtain ⟨m, hm, rfl⟩ := (validate_roman_iff s).1 hval
  rw [roman_converter_int_converter m hm] at hconv
  have hmn : m = n := by exact_mod_cast hconv
  subst hmn
  exact Nat.le_refl _

theorem claim_C5_witness : (int_converter 4).length ≤ ("IV" : String).length :=
  claim_C5 4 (by decide) (by decide) "IV" (by decide) (by decide) (by decide)

/-- C6: the six specific malformed inputs are all rejected by the structural
validator. -/
theorem claim_C6 :
    validate_roman "IIII" = false ∧ validate_roman "VV" = false ∧
    validate_roman "IXL" = false ∧ validate_roman "MMMM" = false ∧
    validate_roman "IL" = false ∧ validate_roman "CCCM" = false := by decide

/-- C7: the six specific well-formed inputs are accepted by the structural
validator and evaluate to the expected values. -/
theorem claim_C7 :
    (validate_roman "MCMXCIV" = true ∧ roman_converter "MCMXCIV" = 1994) ∧
    (validate_roman "IV" = true ∧ roman_converter "IV" = 4) ∧
    (validate_roman "IX" = true ∧ roman_converter "IX" = 9) ∧
    (validate_roman "III" = true ∧ roman_converter "III" = 3) ∧
    (validate_roman "M" = true ∧ roman_converter "M" = 1000) ∧
    (validate_roman "MMMCMXCIX" = true ∧ roman_converter "MMMCMXCIX" = 3999) := by
  decide

/-- C8: every accepted string has length at most 15 (the validator imposes
no length bound of its own — it rejects malformed strings of any length),
and every converted numeral for n in [1,3999] has length at most 15, strictly
below the 20-byte buffer `MAX_ROMAN_LENGTH`. -/
theorem claim_C8 :
    (∀ s : String, validate_roman s = true → s.length ≤ 15) ∧
    (∀ n : Nat, 1 ≤ n → n ≤ 3999 →
      (int_converter n).length ≤ 15 ∧
      (int_converter n).length < MAX_ROMAN_LENGTH) := by
  have hlen : ∀ n : Nat, n ≤ 3999 → (int_converter n).length ≤ 15 := by
    intro n hn
    rw [int_converter_eq_catDigits n hn]
    exact catDigits_length _ (by omega) _ (by omega) _ (by omega) _ (by omega)
  constructor
  · intro s hv
    obtain ⟨n, hn, rfl⟩ := (validate_roman_iff s).1 hv
    exact hlen n hn
  · intro n _ h2
    have := hlen n h2
    rw [MAX_ROMAN_LENGTH]
    omega

theorem claim_C8_witness :
    ("MMMDCCCLXXXVIII" : String).length ≤ 15 ∧
    ((int_converter 3888).length ≤ 15 ∧
      (int_converter 3888).length < MAX_ROMAN_LENGTH) :=
  ⟨claim_C8.1 "MMMDCCCLXXXVIII" (by decide), claim_C8.2 3888 (by decide) (by decide)⟩

/-- C9: in every accepted string each of V, L, D occurs at most once, and as
soon as a prefix contains one of them twice the whole string is rejected,
whatever follows. -/
theorem claim_C9 :
    (∀ s : String, validate_roman s = true →
      s.data.count 'V' ≤ 1 ∧ s.data.count 'L' ≤ 1 ∧ s.data.count 'D' ≤ 1) ∧
    (∀ s t : String,
      (2 ≤ s.data.count 'V' ∨ 2 ≤ s.data.count 'L' ∨ 2 ≤ s.data.count 'D') →
      validate_roman (s ++ t) = false) := by
  have hpart1 : ∀ s : String, validate_roman s = true →
      s.data.count 'V' ≤ 1 ∧ s.data.count 'L' ≤ 1 ∧ s.data.count 'D' ≤ 1 := by
    intro s hv
    obtain ⟨n, hn, rfl⟩ := (validate_roman_iff s).1 hv
    rw [int_converter_eq_catDigits n hn]
    exact catDigits_count _ (by omega) _ (by omega) _ (by omega) _ (by omega)
  refine ⟨hpart1, ?_⟩
  intro s t hcnt
  cases hv : validate_roman (s ++ t)
  · rfl
  · exfalso
    have h := hpart1 (s ++ t) hv
    rw [String.data_append] at h
    simp only [List.count_append] at h
    rcases hcnt with h2 | h2 | h2 <;> omega

theorem claim_C9_witness :
    (("XIV" : String).data.count 'V' ≤ 1 ∧ ("XIV" : String).data.count 'L' ≤ 1 ∧
      ("XIV" : String).data.count 'D' ≤ 1) ∧
    validate_roman ("VV" ++ "I") = false :=
  ⟨claim_C9.1 "XIV" (by decide), claim_C9.2 "VV" "I" (by decide)⟩

/-- C10: every accepted non-empty string over {I,V,X,L,C,D,M} evaluates to a
value in [1,3999] — the evaluator's raw sum is bounded because validation
restricts the input to canonical numerals. -/
theorem claim_C10 (s : String) (hne : s ≠ "")
    (_halpha : ∀ c ∈ s.data, c ∈ alphabetChars)
    (hval : validate_roman s = true) :
    1 ≤ roman_converter s ∧ roman_converter s ≤ 3999 := by
  obtain ⟨n, hn, rfl⟩ := (validate_roman_iff s).1 hval
  rw [roman_converter_int_converter n hn]
  have h1 : 1 ≤ n := by
    rcases Nat.eq_zero_or_pos n with h0 | h0
    · subst h0; exact absurd rfl hne
    · omega
  exact ⟨by exact_mod_cast h1, by exact_mod_cast hn⟩

theorem claim_C10_witness :
    1 ≤ roman_converter "MCMXCIV" ∧ roman_converter "MCMXCIV" ≤ 3999 :=
  claim_C10 "MCMXCIV" (by decide) (by decide) (by decide)

end RomanConverter
